import Mathlib

/-!
Verification of the Manimancer (prompt_to_animate) frontend against its
natural-language specification.  The repository is a Next.js front end plus a
thin API gateway; the definitions below are shallow embeddings of the
TypeScript functions named in the claims, translated clause by clause from the
source files.  JavaScript strings are modelled as Lean `String` (or `List
Char` where line-splitting arithmetic is needed), JS numbers that hold counts
as `Int`, fractional credit costs as `ℚ`, and JS `undefined`/`null` as
`Option`.  JS truthiness of strings (empty string is falsy) is made explicit
through the helpers `jsOrStr` and `jsTruthyStr`.
-/

/-- The result of the JavaScript idiom `s || d` for an optional string `s`:
`undefined`, `null` and the empty string are falsy, so they yield the
default `d`. -/
def jsOrStr (s : Option String) (d : String) : String :=
  match s with
  | some x => if x = "" then d else x
  | none => d

/-- JS truthiness filter for an optional string: `undefined` and `""` are
falsy and become `none`; any non-empty string passes through. -/
def jsTruthyStr (s : Option String) : Option String :=
  match s with
  | some x => if x = "" then none else some x
  | none => none

theorem jsOrStr_ne_empty (s : Option String) (d : String) (hd : d ≠ "") :
    jsOrStr s d ≠ "" := by
  cases s with
  | none => simpa [jsOrStr] using hd
  | some x =>
    by_cases hx : x = "" <;> simp [jsOrStr, hx, hd]

/-! ### Usage records and resolution gating (AnimationGenerator.tsx) -/

/-- The `UsageInfo` interface of `frontend/components/AnimationGenerator.tsx`
(lines 25-31): the per-user usage record returned by `GET /usage/{id}`. -/
structure UsageInfo where
  tier : String
  used : Int
  limit : Int
  remaining : Int
  basic_credits : Int
deriving Repr, DecidableEq

/-- The `tierOrder` array of `canAccessResolution`. -/
def tierOrder : List String := ["free", "basic", "pro"]

/-- JavaScript `Array.prototype.indexOf`: the index of the first occurrence,
or `-1` when the element is absent. -/
def jsIndexOf (xs : List String) (x : String) : Int :=
  match xs.findIdx? (fun y => y == x) with
  | some i => (i : Int)
  | none => -1

/-- The `canAccessResolution` helper of `AnimationGenerator.tsx` (lines
98-107).  `usage` is `none` while the usage record has not been fetched. -/
def canAccessResolution (usage : Option UsageInfo) (minTier : String) : Bool :=
  match usage with
  | none => minTier == "free"
  | some u =>
    let userTierIndex := jsIndexOf tierOrder u.tier
    let requiredTierIndex := jsIndexOf tierOrder minTier
    if u.basic_credits > 0 then true
    else userTierIndex ≥ requiredTierIndex

/-- One entry of the `RESOLUTIONS` array of `AnimationGenerator.tsx`. -/
structure Resolution where
  id : String
  label : String
  minTier : String
  cost : ℚ
  costLabel : String
deriving Repr, DecidableEq

/-- The `RESOLUTIONS` array of `AnimationGenerator.tsx` (lines 42-47). -/
def RESOLUTIONS : List Resolution :=
  [⟨"720p", "720p 30fps", "free", 1, ""⟩,
   ⟨"1080p", "1080p 60fps", "basic", 1, ""⟩,
   ⟨"4k", "4K 60fps", "basic", 5/2, "2.5x"⟩]

/-- The resolution-dropdown click handler of `AnimationGenerator.tsx` (lines
361-394): `isLocked = !canAccessResolution(r.minTier)` and the click only
calls `setResolution(r.id)` when the option is not locked (the button is
also `disabled` when locked). -/
def selectResolution (usage : Option UsageInfo) (current : String)
    (r : Resolution) : String :=
  let isLocked := ! canAccessResolution usage r.minTier
  if isLocked then current else r.id

/-- Specification-side tier order `free < basic < pro`, as a rank. -/
def tierRank (t : String) : Int :=
  if t = "free" then 0 else if t = "basic" then 1 else 2

/-! ### Ad gating (AdSense.tsx) -/

/-- The `shouldShowAds` condition shared by `AdSense` and `AdBanner` in
`frontend/components/AdSense.tsx` (lines 16 and 58). -/
def shouldShowAds (userTier : String) (basicCredits : Int) : Bool :=
  userTier == "free" && basicCredits == 0

/-- Whether the `AdSense` effect injects the Google ad script (lines 18-37):
only when ads should be shown and the script tag is not already present in
the document. -/
def adSenseInjectsScript (userTier : String) (basicCredits : Int)
    (scriptAlreadyLoaded : Bool) : Bool :=
  shouldShowAds userTier basicCredits && ! scriptAlreadyLoaded

/-- Whether the `AdSense` component renders a non-null tree (lines 40-50):
it returns `null` exactly when `shouldShowAds` is false. -/
def adSenseRenders (userTier : String) (basicCredits : Int) : Bool :=
  shouldShowAds userTier basicCredits

/-- The attributes of the `<ins class="adsbygoogle">` element rendered by
`AdBanner` (lines 75-86). -/
structure InsAd where
  client : String
  slot : String
  format : String
deriving Repr, DecidableEq

/-- The `AdBanner` component (lines 57-87): renders the `<ins>` ad markup
when `shouldShowAds` holds and `null` otherwise; the slot attribute is
`slot || 'auto'`. -/
def adBannerRender (userTier : String) (basicCredits : Int)
    (slot : Option String) : Option InsAd :=
  if shouldShowAds userTier basicCredits then
    some ⟨"ca-pub-3724900084324676", jsOrStr slot "auto", "auto"⟩
  else none

/-- The `AdBanner` effect (lines 60-69): pushes to the `adsbygoogle` queue
exactly when ads should be shown. -/
def adBannerPushes (userTier : String) (basicCredits : Int) : Bool :=
  shouldShowAds userTier basicCredits

theorem canAccess_some_iff (u : UsageInfo) (m : String)
    (ht : u.tier ∈ tierOrder) (hm : m ∈ tierOrder) :
    canAccessResolution (some u) m = true ↔
      tierRank m ≤ tierRank u.tier ∨ 0 < u.basic_credits := by
  obtain ⟨t, us, li, re, bc⟩ := u
  simp only [tierOrder, List.mem_cons, List.not_mem_nil, or_false] at ht hm
  by_cases hbc : (0 : Int) < bc
  · rcases ht with h | h | h <;> rcases hm with h' | h' | h' <;>
      subst h <;> subst h' <;>
      simp [canAccessResolution, hbc]
  · rcases ht with h | h | h <;> rcases hm with h' | h' | h' <;>
      subst h <;> subst h' <;>
      simp [canAccessResolution, jsIndexOf, tierOrder, tierRank, hbc]

/-- C4: for a signed-in user whose usage record has been fetched,
`canAccessResolution` grants a resolution option exactly when the user's
tier is at least the option's minimum tier (in the order free < basic <
pro) or the user holds a positive basic-credit balance; a free-tier user
with zero basic credits can access only the 720p option, and a locked
option can never change the selected resolution. -/
theorem c4_tier_gates_resolution_options (u : UsageInfo)
    (ht : u.tier ∈ tierOrder) :
    (∀ r ∈ RESOLUTIONS,
        (canAccessResolution (some u) r.minTier = true ↔
          tierRank r.minTier ≤ tierRank u.tier ∨ 0 < u.basic_credits)) ∧
    (u.tier = "free" → u.basic_credits = 0 →
        (RESOLUTIONS.filter
            (fun r => canAccessResolution (some u) r.minTier)).map
          Resolution.id = ["720p"]) ∧
    (∀ r ∈ RESOLUTIONS, canAccessResolution (some u) r.minTier = false →
        ∀ current, selectResolution (some u) current r = current) := by
  refine ⟨?_, ?_, ?_⟩
  · intro r hr
    refine canAccess_some_iff u r.minTier ht ?_
    simp only [RESOLUTIONS, List.mem_cons, List.not_mem_nil, or_false] at hr
    rcases hr with h | h | h <;> subst h <;> decide
  · intro h1 h2
    obtain ⟨t, us, li, re, bc⟩ := u
    simp only at h1 h2
    subst h1; subst h2
    simp [RESOLUTIONS, canAccessResolution, jsIndexOf, tierOrder,
      List.filter]
  · intro r _ hlock current
    simp [selectResolution, hlock]

theorem c4_witness :
    (RESOLUTIONS.filter
        (fun r => canAccessResolution (some ⟨"free", 0, 5, 5, 0⟩)
          r.minTier)).map Resolution.id = ["720p"] :=
  (c4_tier_gates_resolution_options ⟨"free", 0, 5, 5, 0⟩ (by decide)).2.1
    rfl rfl

/-- C9: the AdSense and AdBanner components render ad markup and run the
ad-script logic exactly for a free-tier user with zero basic credits; for
every other user they render nothing, inject no script and push nothing to
the ad queue. -/
theorem c9_ads_gated_to_nonpaying (userTier : String) (basicCredits : Int)
    (slot : Option String) (loaded : Bool) :
    ((adBannerRender userTier basicCredits slot).isSome = true ↔
      (userTier = "free" ∧ basicCredits = 0)) ∧
    (adBannerPushes userTier basicCredits = true ↔
      (userTier = "free" ∧ basicCredits = 0)) ∧
    (adSenseRenders userTier basicCredits = true ↔
      (userTier = "free" ∧ basicCredits = 0)) ∧
    (loaded = false →
      (adSenseInjectsScript userTier basicCredits loaded = true ↔
        (userTier = "free" ∧ basicCredits = 0))) ∧
    ((¬ userTier = "free" ∨ 0 < basicCredits) →
      adBannerRender userTier basicCredits slot = none ∧
      adSenseRenders userTier basicCredits = false ∧
      adSenseInjectsScript userTier basicCredits loaded = false ∧
      adBannerPushes userTier basicCredits = false) := by
  have hiff : shouldShowAds userTier basicCredits = true ↔
      (userTier = "free" ∧ basicCredits = 0) := by
    simp [shouldShowAds]
  refine ⟨?_, ?_, ?_, ?_, ?_⟩
  · rw [← hiff]
    by_cases h : shouldShowAds userTier basicCredits <;>
      simp [adBannerRender, h]
  · rw [← hiff]; simp [adBannerPushes]
  · rw [← hiff]; simp [adSenseRenders]
  · intro hl; subst hl
    rw [← hiff]; simp [adSenseInjectsScript]
  · intro hno
    have hfalse : shouldShowAds userTier basicCredits = false := by
      rcases hno with h | h
      · simp [shouldShowAds, h]
      · have : basicCredits ≠ 0 := by omega
        simp [shouldShowAds, this]
    simp [adBannerRender, adSenseRenders, adSenseInjectsScript,
      adBannerPushes, hfalse]

theorem c9_witness :
    adBannerRender "pro" 7 (some "slot1") = none ∧
    adSenseRenders "pro" 7 = false ∧
    adSenseInjectsScript "pro" 7 false = false ∧
    adBannerPushes "pro" 7 = false :=
  (c9_ads_gated_to_nonpaying "pro" 7 (some "slot1") false).2.2.2.2
    (Or.inl (by decide))

/-! ### Chat records and the history API client (frontend/lib/api.ts) -/

/-- The `Chat` interface of `frontend/lib/api.ts` (lines 9-16): the chat
record returned by the backend list/get endpoints. -/
structure Chat where
  id : String
  prompt : String
  length : String
  video_url : String
  code : String
  created_at : String
deriving Repr, DecidableEq

/-- The field names of the `Chat` interface of `frontend/lib/api.ts`, in
declaration order. -/
def chatFieldNames : List String :=
  ["id", "prompt", "length", "video_url", "code", "created_at"]

/-- C5 counterexample: the `Chat` record has no `resolution` field and no
owning-user field (`clerk_id`/`user_id`), so a chat returned by the
list/get operations does not contain the selected resolution or the owning
user identifier. -/
theorem c5_counterexample :
    "resolution" ∉ chatFieldNames ∧ "clerk_id" ∉ chatFieldNames ∧
    "user_id" ∉ chatFieldNames := by decide

/-- C5 (amended): a chat record carries exactly the fields id, prompt,
selected duration (`length`), video reference (`video_url`), generated
source snippet (`code`) and creation timestamp (`created_at`); it has no
`resolution` field and no owning-user field, and two chats agreeing on
those six fields are equal. -/
theorem c5_chat_record_fields :
    (chatFieldNames =
        ["id", "prompt", "length", "video_url", "code", "created_at"] ∧
      "resolution" ∉ chatFieldNames ∧ "clerk_id" ∉ chatFieldNames) ∧
    ∀ a b : Chat, a.id = b.id → a.prompt = b.prompt →
      a.length = b.length → a.video_url = b.video_url → a.code = b.code →
      a.created_at = b.created_at → a = b := by
  refine ⟨by decide, ?_⟩
  intro a b h1 h2 h3 h4 h5 h6
  cases a; cases b
  simp_all

theorem c5_witness :
    (⟨"1", "p", "Medium (15s)", "u", "c", "t"⟩ : Chat) =
      ⟨"1", "p", "Medium (15s)", "u", "c", "t"⟩ :=
  c5_chat_record_fields.2 _ _ rfl rfl rfl rfl rfl rfl

/-- The response shape of `GET /chats/{clerk_id}` (`ChatListResponse` in
`frontend/lib/api.ts`, lines 18-21). -/
structure ChatListResponse where
  chats : List Chat
  total : Int
deriving Repr, DecidableEq

/-- The environment a `fetch`-based call runs against: the request itself
can fail (network error), or a response arrives with an `ok` flag and a
body whose JSON decoding can fail. -/
inductive FetchEnv (α : Type) where
  | networkFailure
  | response (ok : Bool) (body : Except String α)

/-- The body of `getUserChats` in `frontend/lib/api.ts` (lines 26-42)
before its `catch`: a network failure or a JSON-decoding failure throws
(modelled as `Except.error`), a non-OK response returns `[]`, and an OK
response returns `data.chats`. -/
def getUserChatsAttempt (env : FetchEnv ChatListResponse) :
    Except String (List Chat) :=
  match env with
  | .networkFailure => .error "fetch failed"
  | .response ok body =>
    if ! ok then .ok []
    else
      match body with
      | .error e => .error e
      | .ok data => .ok data.chats

/-- The full `getUserChats`: the surrounding `try/catch` turns every thrown
error into the empty list, so the function always returns a plain list. -/
def getUserChats (env : FetchEnv ChatListResponse) : List Chat :=
  match getUserChatsAttempt env with
  | .error _ => []
  | .ok chats => chats

/-- C8: `getUserChats` is total over failures - a failed request or a
non-OK or undecodable response yields the empty list, and an OK response
yields exactly the `chats` array of the body; no case throws. -/
theorem c8_getUserChats_total_over_failures (env : FetchEnv ChatListResponse) :
    (env = .networkFailure → getUserChats env = []) ∧
    (∀ body, env = .response false body → getUserChats env = []) ∧
    (∀ ok e, env = .response ok (.error e) → getUserChats env = []) ∧
    (∀ data, env = .response true (.ok data) → getUserChats env = data.chats) := by
  refine ⟨?_, ?_, ?_, ?_⟩
  · intro h; subst h; rfl
  · intro body h; subst h
    cases body <;> rfl
  · intro ok e h; subst h
    cases ok <;> rfl
  · intro data h; subst h; rfl

theorem c8_witness :
    getUserChats (.response true
      (.ok ⟨[⟨"1", "p", "l", "u", "c", "t"⟩], 1⟩)) =
      [⟨"1", "p", "l", "u", "c", "t"⟩] :=
  (c8_getUserChats_total_over_failures _).2.2.2 _ rfl

/-! ### History deletion and upsert (app/page.tsx) -/

/-- The `HistoryItem` interface of `frontend/components/Sidebar.tsx`. -/
structure HistoryItem where
  id : String
  prompt : String
  timestamp : Int
  videoUrl : Option String
  code : Option String
deriving Repr, DecidableEq

/-- The history-list effect of `handleDelete` (`app/page.tsx` lines 39-45):
`setHistory(prev => prev.filter(item => item.id !== id))`. -/
def deleteFromHistory (history : List HistoryItem) (id : String) :
    List HistoryItem :=
  history.filter (fun item => item.id != id)

/-- The current-chat effect of `handleDelete`: `if (currentChat?.id === id)
setCurrentChat(null)`; `currentChat?.id` is `undefined` when no chat is
displayed, and `undefined === id` is false for a string `id`. -/
def deleteCurrentChat (current : Option HistoryItem) (id : String) :
    Option HistoryItem :=
  match current with
  | some c => if c.id = id then none else some c
  | none => none

/-- The state effect of `handleDelete` (both the `app/page.tsx` version and
the authenticated version): the new history list and the new current
chat.  The backend `deleteChat` call of the authenticated version does not
feed back into this state ("Continue with local deletion even if API
fails"). -/
def handleDelete (history : List HistoryItem) (current : Option HistoryItem)
    (id : String) : List HistoryItem × Option HistoryItem :=
  (deleteFromHistory history id, deleteCurrentChat current id)

/-- C6: `handleDelete` removes exactly the entries carrying the deleted id,
leaves every other entry unchanged (and in place), and clears the current
chat exactly when the deleted id is the current chat's id. -/
theorem c6_handleDelete_frame (history : List HistoryItem)
    (current : Option HistoryItem) (id : String) :
    (∀ x, x ∈ (handleDelete history current id).1 ↔
        (x ∈ history ∧ x.id ≠ id)) ∧
    ((∀ x ∈ history, x.id ≠ id) →
        (handleDelete history current id).1 = history) ∧
    (∀ pre victim post, history = pre ++ victim :: post → victim.id = id →
        (∀ x ∈ pre, x.id ≠ id) → (∀ x ∈ post, x.id ≠ id) →
        (handleDelete history current id).1 = pre ++ post) ∧
    (∀ c, current = some c →
        (((handleDelete history current id).2 = none ↔ c.id = id) ∧
          (c.id ≠ id → (handleDelete history current id).2 = some c))) := by
  refine ⟨?_, ?_, ?_, ?_⟩
  · intro x
    simp [handleDelete, deleteFromHistory, List.mem_filter]
  · intro h
    simp only [handleDelete, deleteFromHistory]
    refine List.filter_eq_self.mpr ?_
    intro a ha
    simpa using h a ha
  · intro pre victim post hsplit hvic hpre hpost
    subst hsplit
    simp only [handleDelete, deleteFromHistory, List.filter_append,
      List.filter_cons]
    have h1 : pre.filter (fun item => item.id != id) = pre :=
      List.filter_eq_self.mpr (fun a ha => by simpa using hpre a ha)
    have h2 : post.filter (fun item => item.id != id) = post :=
      List.filter_eq_self.mpr (fun a ha => by simpa using hpost a ha)
    have h3 : (victim.id != id) = false := by simp [hvic]
    rw [h1, h2, h3]
    simp
  · intro c hc
    subst hc
    by_cases h : c.id = id <;>
      simp [handleDelete, deleteCurrentChat, h]

theorem c6_witness :
    (handleDelete
        [⟨"a", "p1", 1, none, none⟩, ⟨"b", "p2", 2, none, none⟩]
        (some ⟨"b", "p2", 2, none, none⟩) "b").1 =
        [⟨"a", "p1", 1, none, none⟩] ∧
    (handleDelete
        [⟨"a", "p1", 1, none, none⟩, ⟨"b", "p2", 2, none, none⟩]
        (some ⟨"b", "p2", 2, none, none⟩) "b").2 = none := by
  have h := c6_handleDelete_frame
    [⟨"a", "p1", 1, none, none⟩, ⟨"b", "p2", 2, none, none⟩]
    (some ⟨"b", "p2", 2, none, none⟩) "b"
  refine ⟨?_, ?_⟩
  · exact h.2.2.1 [⟨"a", "p1", 1, none, none⟩] ⟨"b", "p2", 2, none, none⟩ []
      rfl rfl (by decide) (by decide)
  · exact (h.2.2.2 ⟨"b", "p2", 2, none, none⟩ rfl).1.mpr rfl

/-- JavaScript `Array.prototype.findIndex` as an optional index: the first
index whose element satisfies `p`. -/
def firstIdx? {α : Type} (p : α → Bool) : List α → Option Nat
  | [] => none
  | x :: xs => if p x then some 0 else (firstIdx? p xs).map (· + 1)

/-- JavaScript `Array.prototype.findIndex`: `-1` when no element matches. -/
def jsFindIndex {α : Type} (p : α → Bool) (xs : List α) : Int :=
  match firstIdx? p xs with
  | some i => (i : Int)
  | none => -1

theorem firstIdx?_none_of_all {α : Type} (p : α → Bool) (l : List α)
    (h : ∀ x ∈ l, p x = false) : firstIdx? p l = none := by
  induction l with
  | nil => rfl
  | cons x xs ih =>
    have hx : p x = false := h x (List.mem_cons_self x xs)
    simp [firstIdx?, hx, ih (fun y hy => h y (List.mem_cons_of_mem x hy))]

theorem firstIdx?_some_get {α : Type} (p : α → Bool) (l : List α) (i : Nat)
    (h : firstIdx? p l = some i) :
    ∃ a, l.get? i = some a ∧ p a = true := by
  induction l generalizing i with
  | nil => simp [firstIdx?] at h
  | cons x xs ih =>
    by_cases hx : p x
    · simp [firstIdx?, hx] at h
      exact ⟨x, by simp [← h], hx⟩
    · simp [firstIdx?, hx] at h
      obtain ⟨j, hj, rfl⟩ := h
      obtain ⟨a, ha, hpa⟩ := ih j hj
      exact ⟨a, by simpa using ha, hpa⟩

theorem firstIdx?_isSome_of_mem {α : Type} (p : α → Bool) (l : List α)
    (a : α) (ha : a ∈ l) (hpa : p a = true) :
    (firstIdx? p l).isSome = true := by
  induction l with
  | nil => simp at ha
  | cons x xs ih =>
    by_cases hx : p x
    · simp [firstIdx?, hx]
    · rcases List.mem_cons.mp ha with rfl | hmem
      · exact absurd hpa (by simp [hx])
      · simp [firstIdx?, hx, Option.isSome_map]
        simpa using ih hmem

/-- The `handleGenerateComplete` handler of the authenticated `page.tsx`
(lines 137-151): look up the first history entry with the new item's id;
when found, copy the list and overwrite that position; otherwise prepend
the new item; in both cases the new item becomes the current chat. -/
def handleGenerateComplete (history : List HistoryItem)
    (newItem : HistoryItem) : List HistoryItem × Option HistoryItem :=
  let existingIndex := jsFindIndex (fun item => item.id == newItem.id) history
  if existingIndex ≥ 0 then
    (history.set existingIndex.toNat newItem, some newItem)
  else
    (newItem :: history, some newItem)

/-- C10: `handleGenerateComplete` is an upsert - when an entry with the new
item's id already exists the first such entry is overwritten in place and
the length is unchanged (every other position keeps its entry); when no
entry has that id the new item is prepended and the length grows by one;
in both cases the new item becomes the current chat. -/
theorem c10_handleGenerateComplete_upsert (history : List HistoryItem)
    (newItem : HistoryItem) :
    ((handleGenerateComplete history newItem).2 = some newItem) ∧
    ((∃ x ∈ history, x.id = newItem.id) →
        (firstIdx? (fun item => item.id == newItem.id) history).isSome = true) ∧
    ((∀ x ∈ history, x.id ≠ newItem.id) →
        (handleGenerateComplete history newItem).1 = newItem :: history ∧
        (handleGenerateComplete history newItem).1.length =
          history.length + 1) ∧
    (∀ i, firstIdx? (fun item => item.id == newItem.id) history = some i →
        (handleGenerateComplete history newItem).1 = history.set i newItem ∧
        (handleGenerateComplete history newItem).1.length = history.length ∧
        (handleGenerateComplete history newItem).1.get? i = some newItem ∧
        (∀ j, j ≠ i →
          (handleGenerateComplete history newItem).1.get? j =
            history.get? j) ∧
        (∃ old, history.get? i = some old ∧ old.id = newItem.id)) := by
  refine ⟨?_, ?_, ?_, ?_⟩
  · simp only [handleGenerateComplete]
    split <;> rfl
  · rintro ⟨x, hx, hid⟩
    exact firstIdx?_isSome_of_mem _ history x hx (by simp [hid])
  · intro h
    have hnone : firstIdx? (fun item => item.id == newItem.id) history = none :=
      firstIdx?_none_of_all _ history (fun x hx => by simp [h x hx])
    simp [handleGenerateComplete, jsFindIndex, hnone]
  · intro i hi
    obtain ⟨old, hget, hpid⟩ := firstIdx?_some_get _ history i hi
    have hlt : i < history.length := by
      by_contra hge
      rw [List.get?_eq_none.mpr (by omega)] at hget
      exact Option.noConfusion hget
    have hset : (handleGenerateComplete history newItem).1 =
        history.set i newItem := by
      simp [handleGenerateComplete, jsFindIndex, hi]
    refine ⟨hset, ?_, ?_, ?_, ⟨old, hget, by simpa using hpid⟩⟩
    · rw [hset, List.length_set]
    · rw [hset]
      exact List.get?_set_eq_of_lt newItem hlt
    · intro j hj
      rw [hset]
      exact List.get?_set_ne newItem history (fun h => hj h.symm)

theorem c10_witness :
    (handleGenerateComplete
        [⟨"a", "p1", 1, none, none⟩, ⟨"b", "p2", 2, none, none⟩]
        ⟨"b", "p3", 3, some "v", some "c"⟩).1 =
      [⟨"a", "p1", 1, none, none⟩, ⟨"b", "p3", 3, some "v", some "c"⟩] ∧
    (handleGenerateComplete
        [⟨"a", "p1", 1, none, none⟩, ⟨"b", "p2", 2, none, none⟩]
        ⟨"b", "p3", 3, some "v", some "c"⟩).2 =
      some ⟨"b", "p3", 3, some "v", some "c"⟩ := by
  have h := c10_handleGenerateComplete_upsert
    [⟨"a", "p1", 1, none, none⟩, ⟨"b", "p2", 2, none, none⟩]
    ⟨"b", "p3", 3, some "v", some "c"⟩
  exact ⟨((h.2.2.2 1 (by decide)).1).trans (by decide), h.1⟩

/-! ### The Dodo Payments webhook route (app/api/webhook/dodo/route.ts) -/

/-- The three Dodo Payments event kinds the webhook route handles. -/
inductive DodoEventKind where
  | paymentSucceeded
  | subscriptionActive
  | subscriptionCancelled
deriving Repr, DecidableEq

/-- The parts of a Dodo Payments webhook payload the handler reads:
`payload.data.metadata?.clerk_id` (absent metadata or key gives
`undefined`, modelled `none`) and `payload.data.product_id`. -/
structure DodoPayload where
  kind : DodoEventKind
  metadata_clerk_id : Option String
  product_id : Option String
deriving Repr, DecidableEq

/-- The JSON body `notifyBackend` POSTs to the backend `/webhook/payment`
endpoint; `JSON.stringify` drops an `undefined` `product_id`. -/
structure BackendWebhookBody where
  event_type : String
  clerk_id : String
  product_id : Option String
deriving Repr, DecidableEq

/-- The `event_type` string each handler passes to `notifyBackend`. -/
def dodoEventType : DodoEventKind → String
  | .paymentSucceeded => "payment_succeeded"
  | .subscriptionActive => "subscription_active"
  | .subscriptionCancelled => "subscription_cancelled"

/-- The webhook route of `app/api/webhook/dodo/route.ts`: each handler
extracts `clerk_id` from the payload metadata and calls `notifyBackend`
only when it is truthy (`if (clerkId)`); the payment handler also forwards
`product_id`, the subscription handlers do not.  The returned value is the
body of the backend call, or `none` when no call is made. -/
def dodoWebhookBackendCall (p : DodoPayload) : Option BackendWebhookBody :=
  match p.kind with
  | .paymentSucceeded =>
    match jsTruthyStr p.metadata_clerk_id with
    | some cid => some ⟨"payment_succeeded", cid, p.product_id⟩
    | none => none
  | .subscriptionActive =>
    match jsTruthyStr p.metadata_clerk_id with
    | some cid => some ⟨"subscription_active", cid, none⟩
    | none => none
  | .subscriptionCancelled =>
    match jsTruthyStr p.metadata_clerk_id with
    | some cid => some ⟨"subscription_cancelled", cid, none⟩
    | none => none

/-- C7: the webhook handler forwards an event to the backend exactly when
the payload metadata carries a (truthy) clerk id; the forwarded JSON body
holds the event type, that clerk id and - for payment events only - the
product id; with no clerk id, no backend call is made. -/
theorem c7_webhook_forwards_iff_clerk_id (p : DodoPayload) :
    ((p.metadata_clerk_id = none ∨ p.metadata_clerk_id = some "") →
        dodoWebhookBackendCall p = none) ∧
    (∀ cid, p.metadata_clerk_id = some cid → cid ≠ "" →
        dodoWebhookBackendCall p =
          some ⟨dodoEventType p.kind, cid,
            match p.kind with
            | .paymentSucceeded => p.product_id
            | .subscriptionActive => none
            | .subscriptionCancelled => none⟩) ∧
    ((dodoWebhookBackendCall p).isSome = true ↔
        ∃ cid, p.metadata_clerk_id = some cid ∧ cid ≠ "") := by
  obtain ⟨kind, mcid, pid⟩ := p
  refine ⟨?_, ?_, ?_⟩
  · rintro (h | h) <;> subst h <;>
      cases kind <;> simp [dodoWebhookBackendCall, jsTruthyStr]
  · rintro cid rfl hne
    cases kind <;>
      simp [dodoWebhookBackendCall, jsTruthyStr, hne, dodoEventType]
  · cases mcid with
    | none => cases kind <;> simp [dodoWebhookBackendCall, jsTruthyStr]
    | some cid =>
      by_cases hne : cid = "" <;> cases kind <;>
        simp [dodoWebhookBackendCall, jsTruthyStr, hne]

theorem c7_witness :
    dodoWebhookBackendCall
        ⟨.paymentSucceeded, some "user_1", some "pdt_basic"⟩ =
      some ⟨"payment_succeeded", "user_1", some "pdt_basic"⟩ :=
  (c7_webhook_forwards_iff_clerk_id
      ⟨.paymentSucceeded, some "user_1", some "pdt_basic"⟩).2.1
    "user_1" rfl (by decide)

/-! ### The user-usage record (spec-modelled backend state) -/

/-- Modelled from the spec: the backend user-usage record - "tier, credit
balance, monthly counters, reset timestamp" - kept in the document store.
The backend code that maintains it (`backend/main.py`) is not part of the
source snapshot; only its frontend mirror `UsageInfo` is.  Credits are
rational because the 4K resolution costs 2.5 credits. -/
structure UserUsage where
  tier : String
  basic_credits : ℚ
  monthly_used : ℚ
  reset_at : Int
deriving Repr, DecidableEq

/-- Modelled from the spec: the operations that touch the credit balance.
A purchase grants a non-negative number of credits ("a purchased unit"), a
video generation consumes the cost of the selected resolution only when
the balance covers it ("credits never go negative", "consumed per video
generation"), and a monthly reset clears the monthly counter. -/
inductive UsageOp where
  | grantCredits (amount : ℚ)
  | consumeCredits (cost : ℚ)
  | monthlyReset (now : Int)
deriving Repr, DecidableEq

/-- Modelled from the spec: one read-modify-write update of the usage
record. -/
def applyUsageOp (s : UserUsage) : UsageOp → UserUsage
  | .grantCredits a =>
    if 0 ≤ a then { s with basic_credits := s.basic_credits + a } else s
  | .consumeCredits c =>
    if 0 ≤ c ∧ c ≤ s.basic_credits then
      { s with basic_credits := s.basic_credits - c,
               monthly_used := s.monthly_used + 1 }
    else s
  | .monthlyReset now => { s with monthly_used := 0, reset_at := now }

/-- A sequence of usage operations applied in order. -/
def applyUsageOps (s : UserUsage) (ops : List UsageOp) : UserUsage :=
  ops.foldl applyUsageOp s

/-- C3: credits never go negative - from any usage record with a
non-negative credit balance, every sequence of credit-granting,
credit-consuming and reset operations leaves the balance non-negative. -/
theorem c3_credits_never_negative (s : UserUsage) (ops : List UsageOp)
    (h : 0 ≤ s.basic_credits) :
    0 ≤ (applyUsageOps s ops).basic_credits := by
  induction ops generalizing s with
  | nil => simpa [applyUsageOps] using h
  | cons op rest ih =>
    have hstep : 0 ≤ (applyUsageOp s op).basic_credits := by
      cases op with
      | grantCredits a =>
        by_cases ha : (0 : ℚ) ≤ a <;> simp [applyUsageOp, ha] <;> linarith
      | consumeCredits c =>
        by_cases hc : (0 : ℚ) ≤ c ∧ c ≤ s.basic_credits
        · simp only [applyUsageOp, if_pos hc]
          linarith [hc.2]
        · simp only [applyUsageOp, if_neg hc]
          exact h
      | monthlyReset now => simpa [applyUsageOp] using h
    simpa [applyUsageOps] using ih (applyUsageOp s op) hstep

theorem c3_witness :
    0 ≤ (applyUsageOps ⟨"free", 0, 0, 0⟩
        [.grantCredits 5, .consumeCredits (5/2), .consumeCredits (5/2),
         .consumeCredits 1]).basic_credits :=
  c3_credits_never_negative ⟨"free", 0, 0, 0⟩ _ (by norm_num)

/-! ### Error surfacing in handleGenerate (AnimationGenerator.tsx) -/

/-- The `ProgressStep` interface of `AnimationGenerator.tsx` (lines 16-23):
one parsed `data:` event of the progress stream. -/
structure ProgressStep where
  step : Int
  status : String
  message : Option String
  video_url : Option String
  code : Option String
  chat_id : Option String
deriving Repr, DecidableEq

/-- The component state `handleGenerate` manipulates: the `loading`,
`error`, `videoUrl`, `code` and `currentProgress` hooks, plus the local
`completed` flag. -/
structure GenUIState where
  loading : Bool
  error : Option String
  videoUrl : Option String
  codeText : Option String
  currentProgress : Option ProgressStep
  completed : Bool
deriving Repr, DecidableEq

/-- The state right after the `setLoading(true); setVideoUrl(null);
setError(null); setCode(null); setCurrentProgress(null)` prologue of
`handleGenerate` (lines 123-127). -/
def genStartState : GenUIState :=
  ⟨true, none, none, none, none, false⟩

/-- The initial HTTP response of `POST /generate-stream`: its `ok` flag,
its status code and the `detail` field of its JSON error body
(`response.json().catch(() => ({}))` yields `none` when the body is not
JSON or has no detail). -/
structure GenResponse where
  ok : Bool
  status : Int
  detail : Option String
deriving Repr, DecidableEq

/-- The message thrown for a non-OK response (lines 143-149): a sign-in
prompt on 401, otherwise `errorData.detail || 'Failed to start
generation'`. -/
def notOkMessage (r : GenResponse) : String :=
  if r.status = 401 then "Please sign in to generate videos"
  else jsOrStr r.detail "Failed to start generation"

/-- One iteration of the `for (const line of lines)` body for a parsed
event (lines 173-193): `setCurrentProgress(data)`, then the `complete`
branch (requires truthy `video_url` and `code`) or the `error` branch
(`setError(data.message || ...)`, `setLoading(false)`, early `return`,
signalled by the Bool). -/
def applyEvent (st : GenUIState) (e : ProgressStep) : GenUIState × Bool :=
  let st1 := { st with currentProgress := some e }
  if e.status = "complete" ∧ (jsTruthyStr e.video_url).isSome ∧
      (jsTruthyStr e.code).isSome then
    ({ st1 with
        videoUrl := e.video_url
        codeText := e.code
        completed := true }, false)
  else if e.status = "error" then
    ({ st1 with
        error := some (jsOrStr e.message "An error occurred during generation")
        loading := false }, true)
  else (st1, false)

/-- The stream loop over the parsed events, stopping at the first early
return. -/
def runEvents (st : GenUIState) : List ProgressStep → GenUIState × Bool
  | [] => (st, false)
  | e :: es =>
    let r := applyEvent st e
    if r.2 then (r.1, true) else runEvents r.1 es

/-- The leftover-buffer processing after the stream ends (lines 202-221):
only a `complete` event with truthy payload, and only when not already
completed, has an effect; `setCurrentProgress` is not called here. -/
def applyLeftover (st : GenUIState) : Option ProgressStep → GenUIState
  | none => st
  | some e =>
    if e.status = "complete" ∧ (jsTruthyStr e.video_url).isSome ∧
        (jsTruthyStr e.code).isSome ∧ st.completed = false then
      { st with
          videoUrl := e.video_url
          codeText := e.code
          completed := true }
    else st

/-- The epilogue after the stream ends without an early return (lines
223-231): `setLoading(false)` and, when nothing completed, the
unexpected-end error. -/
def finishStream (st : GenUIState) : GenUIState :=
  let st1 := { st with loading := false }
  if st1.completed then st1
  else { st1 with error := some "Generation ended unexpectedly. Please try again." }

/-- The state produced by one run of `handleGenerate` (lines 121-236),
given the initial response, the parsed events the stream delivers in
order, and the leftover buffered event (if any): a non-OK response throws
into the `catch` which sets the error and clears loading; otherwise the
stream loop runs, stopping early on an `error` event. -/
def handleGenerateOutcome (resp : GenResponse) (events : List ProgressStep)
    (leftover : Option ProgressStep) : GenUIState :=
  if resp.ok = false then
    { genStartState with error := some (notOkMessage resp), loading := false }
  else
    let r := runEvents genStartState events
    if r.2 then r.1 else finishStream (applyLeftover r.1 leftover)

/-- The render condition of the error box (lines 501-512): `{error && ...}`
shows the message exactly when a non-empty error string is set. -/
def errorIsShown (st : GenUIState) : Bool :=
  match st.error with
  | some m => m != ""
  | none => false

theorem runEvents_append (st : GenUIState) (xs ys : List ProgressStep) :
    runEvents st (xs ++ ys) =
      if (runEvents st xs).2 then runEvents st xs
      else runEvents (runEvents st xs).1 ys := by
  induction xs generalizing st with
  | nil => simp [runEvents]
  | cons e es ih =>
    simp only [List.cons_append, runEvents]
    by_cases h : (applyEvent st e).2
    · simp [h]
    · simp [h, ih]

theorem runEvents_not_stopped (st : GenUIState) (xs : List ProgressStep) :
    (∀ p ∈ xs, p.status ≠ "error") → (runEvents st xs).2 = false := by
  induction xs generalizing st with
  | nil => intro _; simp [runEvents]
  | cons e es ih =>
    intro h
    have he : e.status ≠ "error" := h e (List.mem_cons_self e es)
    have hstop : (applyEvent st e).2 = false := by
      simp only [applyEvent]
      by_cases h1 : (e.status = "complete" ∧ (jsTruthyStr e.video_url).isSome ∧
          (jsTruthyStr e.code).isSome)
      · simp [h1]
      · simp [h1, he]
    simp only [runEvents, hstop, if_false, Bool.false_eq_true]
    exact ih _ (fun p hp => h p (List.mem_cons_of_mem e hp))

theorem applyEvent_error (st : GenUIState) (e : ProgressStep)
    (h : e.status = "error") :
    applyEvent st e =
      ({ st with
          currentProgress := some e
          error := some (jsOrStr e.message "An error occurred during generation")
          loading := false }, true) := by
  have hnc : ¬ (e.status = "complete" ∧ (jsTruthyStr e.video_url).isSome ∧
      (jsTruthyStr e.code).isSome) := by
    rintro ⟨hc, -⟩
    rw [h] at hc
    exact absurd hc (by decide)
  simp [applyEvent, hnc, h]

theorem notOkMessage_ne_empty (r : GenResponse) : notOkMessage r ≠ "" := by
  simp only [notOkMessage]
  split
  · decide
  · exact jsOrStr_ne_empty _ _ (by decide)

/-- C2: errors are surfaced as a message - a non-OK response to
`POST /generate-stream` sets (and shows) the thrown message, which is the
sign-in prompt on status 401 and the response's detail otherwise, with
loading cleared; and when the first `error`-status event of the progress
stream arrives its message is set (and shown), loading is cleared, and the
run terminates there (later events and the leftover buffer are never
processed). -/
theorem c2_errors_surfaced_to_user (resp : GenResponse)
    (events : List ProgressStep) (leftover : Option ProgressStep) :
    (resp.ok = false →
        (handleGenerateOutcome resp events leftover).error =
          some (notOkMessage resp) ∧
        (handleGenerateOutcome resp events leftover).loading = false ∧
        errorIsShown (handleGenerateOutcome resp events leftover) = true ∧
        (resp.status = 401 →
          (handleGenerateOutcome resp events leftover).error =
            some "Please sign in to generate videos")) ∧
    (resp.ok = true →
        ∀ pre e post, events = pre ++ e :: post →
        (∀ p ∈ pre, p.status ≠ "error") → e.status = "error" →
        (handleGenerateOutcome resp events leftover).error =
          some (jsOrStr e.message "An error occurred during generation") ∧
        (handleGenerateOutcome resp events leftover).loading = false ∧
        errorIsShown (handleGenerateOutcome resp events leftover) = true ∧
        (handleGenerateOutcome resp events leftover) =
          (runEvents genStartState (pre ++ [e])).1) := by
  constructor
  · intro hok
    have hne := notOkMessage_ne_empty resp
    have hh : handleGenerateOutcome resp events leftover =
        { genStartState with error := some (notOkMessage resp), loading := false } := by
      simp [handleGenerateOutcome, hok]
    rw [hh]
    refine ⟨rfl, rfl, ?_, ?_⟩
    · simp [errorIsShown, hne]
    · intro h401
      simp [notOkMessage, h401]
  · intro hok pre e post hev hpre herr
    subst hev
    have hns := runEvents_not_stopped genStartState pre hpre
    have herrstep := applyEvent_error (runEvents genStartState pre).1 e herr
    have hrun : runEvents genStartState (pre ++ e :: post) =
        ((applyEvent (runEvents genStartState pre).1 e).1, true) := by
      rw [runEvents_append, if_neg (by simp [hns])]
      simp [runEvents, herrstep]
    have hrun1 : runEvents genStartState (pre ++ [e]) =
        ((applyEvent (runEvents genStartState pre).1 e).1, true) := by
      rw [runEvents_append, if_neg (by simp [hns])]
      simp [runEvents, herrstep]
    have hout : handleGenerateOutcome resp (pre ++ e :: post) leftover =
        (applyEvent (runEvents genStartState pre).1 e).1 := by
      simp [handleGenerateOutcome, hok, hrun]
    rw [hout, herrstep]
    refine ⟨rfl, rfl, ?_, ?_⟩
    · simp [errorIsShown, jsOrStr_ne_empty e.message
        "An error occurred during generation" (by decide)]
    · rw [hrun1, herrstep]

theorem c2_witness :
    (handleGenerateOutcome ⟨false, 401, none⟩ [] none).error =
      some "Please sign in to generate videos" ∧
    (handleGenerateOutcome ⟨true, 200, none⟩
        [⟨1, "analyzing", some "Analyzing your prompt...", none, none, none⟩,
         ⟨2, "error", some "Render failed", none, none, none⟩,
         ⟨3, "generating", none, none, none, none⟩] none).error =
      some "Render failed" := by
  refine ⟨?_, ?_⟩
  · exact ((c2_errors_surfaced_to_user ⟨false, 401, none⟩ [] none).1
      rfl).2.2.2 rfl
  · exact ((c2_errors_surfaced_to_user ⟨true, 200, none⟩
      [⟨1, "analyzing", some "Analyzing your prompt...", none, none, none⟩,
       ⟨2, "error", some "Render failed", none, none, none⟩,
       ⟨3, "generating", none, none, none, none⟩] none).2 rfl
      [⟨1, "analyzing", some "Analyzing your prompt...", none, none, none⟩]
      ⟨2, "error", some "Render failed", none, none, none⟩
      [⟨3, "generating", none, none, none, none⟩]
      rfl (by decide) rfl).1

/-! ### The progress-stream client loop (AnimationGenerator.tsx, lines
151-221).  Decoded text is modelled as `List Char`; the stream is a list
of decoded chunks.  Parsing a `data:` line is abstracted by a classifier
`classify : List Char → Option Bool` standing for `JSON.parse(line.slice(6))`
followed by the status test: `none` means the parse throws (the loop logs
and continues), `some true` means the parsed event has status `error`
(the handler sets the error and returns), `some false` is every other
event (applied to the progress state, loop continues). -/

/-- JavaScript `buffer.split('\n')` on decoded text: always non-empty; the
last element is the text after the final newline. -/
def splitLinesChar : List Char → List (List Char)
  | [] => [[]]
  | c :: rest =>
    let r := splitLinesChar rest
    if c = '\n' then [] :: r
    else (c :: r.headD []) :: r.tail

/-- The characters of the `'data: '` marker tested by
`line.startsWith('data: ')`. -/
def dataMarker : List Char := ['d', 'a', 't', 'a', ':', ' ']

/-- The guard `line.startsWith('data: ')`. -/
def startsWithData (l : List Char) : Bool := dataMarker.isPrefixOf l

/-- The `for (const line of lines)` body (lines 170-199): the list of
lines applied to the progress state in order, and whether an `error` event
caused the early `return`. -/
def handleLines (classify : List Char → Option Bool) :
    List (List Char) → List (List Char) × Bool
  | [] => ([], false)
  | l :: ls =>
    if startsWithData l then
      match classify l with
      | none => handleLines classify ls
      | some true => ([l], true)
      | some false =>
        let r := handleLines classify ls
        (l :: r.1, r.2)
    else handleLines classify ls

/-- The `while (true)` read loop (lines 161-200): the buffer carries the
trailing partial line across chunk boundaries.  Returns the applied lines,
the final buffer, and whether the loop returned early on an error event. -/
def processChunks (classify : List Char → Option Bool) (buffer : List Char) :
    List (List Char) → List (List Char) × List Char × Bool
  | [] => ([], buffer, false)
  | c :: cs =>
    let parts := splitLinesChar (buffer ++ c)
    let newBuffer := parts.getLastD []
    let r := handleLines classify parts.dropLast
    if r.2 then (r.1, newBuffer, true)
    else
      let r2 := processChunks classify newBuffer cs
      (r.1 ++ r2.1, r2.2.1, r2.2.2)

/-- The whole stream client (lines 151-221): run the read loop from an
empty buffer; on an early error return the leftover buffer is never
processed, otherwise the leftover buffered line is handed to the
`data:`-guarded post-processing (lines 202-221). -/
def sseClient (classify : List Char → Option Bool)
    (chunks : List (List Char)) : List (List Char) × Option (List Char) :=
  let r := processChunks classify [] chunks
  if r.2.2 then (r.1, none)
  else (r.1, if startsWithData r.2.1 then some r.2.1 else none)

/-- Specification-side reference: process the concatenation of the whole
stream in one piece - split it into lines, run the loop body over all
newline-terminated lines, and hand the final segment to the leftover
processing. -/
def sseSpec (classify : List Char → Option Bool) (s : List Char) :
    List (List Char) × Option (List Char) :=
  let parts := splitLinesChar s
  let r := handleLines classify parts.dropLast
  let lastPart := parts.getLastD []
  (r.1, if r.2 then none
    else if startsWithData lastPart then some lastPart else none)

/-- Reattach a partial line to the first line of a split. -/
def consHead (p : List Char) (parts : List (List Char)) :
    List (List Char) :=
  (p ++ parts.headD []) :: parts.tail

theorem splitLinesChar_ne_nil (s : List Char) : splitLinesChar s ≠ [] := by
  cases s with
  | nil => simp [splitLinesChar]
  | cons c rest =>
    simp only [splitLinesChar]
    split <;> simp

theorem splitLinesChar_no_newline (p : List Char) (hp : '\n' ∉ p) :
    splitLinesChar p = [p] := by
  induction p with
  | nil => rfl
  | cons c p' ih =>
    have hc : c ≠ '\n' := fun h => hp (h ▸ List.mem_cons_self c p')
    have hp' : '\n' ∉ p' := fun h => hp (List.mem_cons_of_mem c h)
    simp [splitLinesChar, hc, ih hp']

theorem getLastD_mem {α : Type} (l : List α) (hl : l ≠ []) (d : α) :
    l.getLastD d ∈ l := by
  induction l generalizing d with
  | nil => exact absurd rfl hl
  | cons x xs ih =>
    cases xs with
    | nil => simp [List.getLastD_cons]
    | cons y ys =>
      rw [List.getLastD_cons]
      exact List.mem_cons_of_mem x (ih (by simp) x)

theorem getLastD_default_irrel {α : Type} (l : List α) (hl : l ≠ [])
    (d d' : α) : l.getLastD d = l.getLastD d' := by
  cases l with
  | nil => exact absurd rfl hl
  | cons x xs => rw [List.getLastD_cons, List.getLastD_cons]

theorem getLastD_append_right {α : Type} (X Y : List α) (hY : Y ≠ [])
    (d : α) : (X ++ Y).getLastD d = Y.getLastD d := by
  induction X generalizing d with
  | nil => rfl
  | cons x xs ih =>
    rw [List.cons_append, List.getLastD_cons, ih x]
    exact getLastD_default_irrel Y hY x d

theorem splitLinesChar_mem_no_newline (s : List Char) :
    ∀ l ∈ splitLinesChar s, '\n' ∉ l := by
  induction s with
  | nil =>
    intro l hl
    simp [splitLinesChar] at hl
    simp [hl]
  | cons c rest ih =>
    intro l hl
    by_cases hc : c = '\n'
    · simp only [splitLinesChar, if_pos hc] at hl
      rcases List.mem_cons.mp hl with rfl | hmem
      · simp
      · exact ih l hmem
    · simp only [splitLinesChar, if_neg hc] at hl
      cases h : splitLinesChar rest with
      | nil => exact absurd h (splitLinesChar_ne_nil rest)
      | cons x rs =>
        rw [h] at hl
        simp only [List.headD_cons, List.tail_cons] at hl
        rcases List.mem_cons.mp hl with rfl | hmem
        · intro hmem2
          rcases List.mem_cons.mp hmem2 with heq | hx
          · exact hc heq.symm
          · exact ih x (h ▸ List.mem_cons_self x rs) hx
        · exact ih l (h ▸ List.mem_cons_of_mem x hmem)

theorem splitLinesChar_append (a b : List Char) :
    splitLinesChar (a ++ b) =
      (splitLinesChar a).dropLast ++
        consHead ((splitLinesChar a).getLastD []) (splitLinesChar b) := by
  induction a with
  | nil =>
    cases h : splitLinesChar b with
    | nil => exact absurd h (splitLinesChar_ne_nil b)
    | cons l ls =>
      simp [splitLinesChar, consHead, h]
  | cons c a' ih =>
    by_cases hc : c = '\n'
    · subst hc
      cases h : splitLinesChar a' with
      | nil => exact absurd h (splitLinesChar_ne_nil a')
      | cons x rs =>
        simp only [List.cons_append, splitLinesChar, if_pos, ih, h,
          List.getLastD_cons, List.dropLast_cons_of_ne_nil
            (show x :: rs ≠ [] by simp)]
        simp
        rw [ih, h]
        simp [List.getLastD_cons]
        rw [← List.getLastD_eq_getLast?, ← List.getLastD_eq_getLast?,
          List.getLastD_cons]
    · cases h : splitLinesChar a' with
      | nil => exact absurd h (splitLinesChar_ne_nil a')
      | cons x rs =>
        cases rs with
        | nil =>
          cases hb : splitLinesChar b with
          | nil => exact absurd hb (splitLinesChar_ne_nil b)
          | cons y ys =>
            simp only [List.cons_append, splitLinesChar, if_neg hc, ih, h,
              hb, consHead]
            simp
            rw [ih, h, hb]
            simp [consHead]
        | cons y rs' =>
          simp only [List.cons_append, splitLinesChar, if_neg hc, ih, h,
            consHead, List.getLastD_cons]
          simp
          rw [ih, h]
          simp [consHead, List.getLastD_cons]
          rw [← List.getLastD_eq_getLast?, ← List.getLastD_eq_getLast?]
          exact getLastD_default_irrel _ (by simp) _ _

theorem consHead_eq_split (p b : List Char) (hp : '\n' ∉ p) :
    consHead p (splitLinesChar b) = splitLinesChar (p ++ b) := by
  rw [splitLinesChar_append p b, splitLinesChar_no_newline p hp]
  simp [List.getLastD_cons]

theorem handleLines_append (classify : List Char → Option Bool)
    (xs ys : List (List Char)) :
    handleLines classify (xs ++ ys) =
      if (handleLines classify xs).2 then handleLines classify xs
      else ((handleLines classify xs).1 ++ (handleLines classify ys).1,
        (handleLines classify ys).2) := by
  induction xs with
  | nil => simp [handleLines]
  | cons l ls ih =>
    simp only [List.cons_append, handleLines]
    by_cases hd : startsWithData l
    · cases hcl : classify l with
      | none => simp [hd, hcl, ih]
      | some bv =>
        cases bv with
        | true => simp [hd, hcl]
        | false =>
          by_cases h2 : (handleLines classify ls).2 <;>
            simp [hd, hcl, ih, h2]
    · simp [hd, ih]

theorem handleLines_filter (classify : List Char → Option Bool)
    (xs : List (List Char))
    (h : ∀ l ∈ xs, startsWithData l = true → classify l = some false) :
    handleLines classify xs = (xs.filter startsWithData, false) := by
  induction xs with
  | nil => simp [handleLines]
  | cons l ls ih =>
    have ih' := ih (fun x hx hdx => h x (List.mem_cons_of_mem l hx) hdx)
    by_cases hd : startsWithData l
    · have hcl := h l (List.mem_cons_self l ls) hd
      simp [handleLines, hd, hcl, ih', List.filter_cons]
    · simp [handleLines, hd, ih', List.filter_cons]

/-- Pack a read-loop result the way `sseClient` does: discard the buffer
on an early error return, otherwise keep the leftover `data:` line. -/
def finishRun (r : List (List Char) × List Char × Bool) :
    List (List Char) × Option (List Char) :=
  (r.1, if r.2.2 then none
    else if startsWithData r.2.1 then some r.2.1 else none)

theorem processChunks_spec (classify : List Char → Option Bool)
    (chunks : List (List Char)) :
    ∀ buffer : List Char, '\n' ∉ buffer →
      finishRun (processChunks classify buffer chunks) =
        sseSpec classify (buffer ++ chunks.flatten) := by
  induction chunks with
  | nil =>
    intro buffer hb
    simp [processChunks, finishRun, sseSpec,
      splitLinesChar_no_newline buffer hb, handleLines]
  | cons c cs ih =>
    intro buffer hb
    have hpne : splitLinesChar (buffer ++ c) ≠ [] :=
      splitLinesChar_ne_nil (buffer ++ c)
    have hnbnl : '\n' ∉ (splitLinesChar (buffer ++ c)).getLastD [] :=
      splitLinesChar_mem_no_newline (buffer ++ c) _
        (getLastD_mem _ hpne [])
    have hsne : splitLinesChar
        ((splitLinesChar (buffer ++ c)).getLastD [] ++ cs.flatten) ≠ [] :=
      splitLinesChar_ne_nil _
    have hsplit : splitLinesChar (buffer ++ (c :: cs).flatten) =
        (splitLinesChar (buffer ++ c)).dropLast ++
          splitLinesChar ((splitLinesChar (buffer ++ c)).getLastD [] ++
            cs.flatten) := by
      rw [List.flatten_cons, ← List.append_assoc,
        splitLinesChar_append (buffer ++ c) cs.flatten,
        consHead_eq_split _ _ hnbnl]
    have hdrop : (splitLinesChar (buffer ++ (c :: cs).flatten)).dropLast =
        (splitLinesChar (buffer ++ c)).dropLast ++
          (splitLinesChar ((splitLinesChar (buffer ++ c)).getLastD [] ++
            cs.flatten)).dropLast := by
      rw [hsplit, List.dropLast_append_of_ne_nil _ hsne]
    have hlast : (splitLinesChar (buffer ++ (c :: cs).flatten)).getLastD [] =
        (splitLinesChar ((splitLinesChar (buffer ++ c)).getLastD [] ++
          cs.flatten)).getLastD [] := by
      rw [hsplit]
      exact getLastD_append_right _ _ hsne []
    by_cases hstop :
        (handleLines classify (splitLinesChar (buffer ++ c)).dropLast).2
    · -- the loop returned early inside this chunk
      have hc1 : processChunks classify buffer (c :: cs) =
          ((handleLines classify (splitLinesChar (buffer ++ c)).dropLast).1,
            (splitLinesChar (buffer ++ c)).getLastD [], true) := by
        simp [processChunks, hstop]
      have hh : handleLines classify
          (splitLinesChar (buffer ++ (c :: cs).flatten)).dropLast =
          ((handleLines classify
            (splitLinesChar (buffer ++ c)).dropLast).1, true) := by
        rw [hdrop, handleLines_append, if_pos hstop]
        exact Prod.ext rfl hstop
      have hspec : sseSpec classify (buffer ++ (c :: cs).flatten) =
          ((handleLines classify
            (splitLinesChar (buffer ++ c)).dropLast).1, none) := by
        simp only [sseSpec]
        rw [hh]
        simp
      rw [hc1, hspec]
      simp [finishRun]
    · -- this chunk is processed without an early return
      have hc1 : processChunks classify buffer (c :: cs) =
          ((handleLines classify (splitLinesChar (buffer ++ c)).dropLast).1 ++
            (processChunks classify
              ((splitLinesChar (buffer ++ c)).getLastD []) cs).1,
            (processChunks classify
              ((splitLinesChar (buffer ++ c)).getLastD []) cs).2.1,
            (processChunks classify
              ((splitLinesChar (buffer ++ c)).getLastD []) cs).2.2) := by
        simp [processChunks, hstop]
      have hih := ih ((splitLinesChar (buffer ++ c)).getLastD []) hnbnl
      have hih1 := congrArg Prod.fst hih
      have hih2 := congrArg Prod.snd hih
      simp only [finishRun, sseSpec] at hih1 hih2
      have hh : handleLines classify
          (splitLinesChar (buffer ++ (c :: cs).flatten)).dropLast =
          ((handleLines classify (splitLinesChar (buffer ++ c)).dropLast).1 ++
            (handleLines classify
              (splitLinesChar ((splitLinesChar (buffer ++ c)).getLastD [] ++
                cs.flatten)).dropLast).1,
            (handleLines classify
              (splitLinesChar ((splitLinesChar (buffer ++ c)).getLastD [] ++
                cs.flatten)).dropLast).2) := by
        rw [hdrop, handleLines_append, if_neg hstop]
      simp only [finishRun, hc1, sseSpec, hh, hlast]
      refine Prod.ext ?_ ?_
      · simpa using congrArg (fun l =>
          (handleLines classify
            (splitLinesChar (buffer ++ c)).dropLast).1 ++ l) hih1
      · simpa using hih2

/-- C1: the progress-stream client delivers status lines in stream order -
for every sequence of decoded chunks, the run of the read loop (applied
lines, and leftover handling) equals the run over the reassembled
concatenation, so lines split across chunk boundaries are reassembled with
the trailing partial line kept in the buffer; and when every `data:` line
parses to a non-error event, the lines applied to the progress state are
exactly the newline-terminated `data:` lines of the whole stream, in
order, with the leftover buffered `data:` line processed after the stream
ends. -/
theorem c1_progress_stream_in_order (classify : List Char → Option Bool)
    (chunks : List (List Char)) :
    sseClient classify chunks = sseSpec classify chunks.flatten ∧
    ((∀ l ∈ (splitLinesChar chunks.flatten).dropLast,
        startsWithData l = true → classify l = some false) →
      (sseClient classify chunks).1 =
        ((splitLinesChar chunks.flatten).dropLast).filter startsWithData ∧
      (sseClient classify chunks).2 =
        (if startsWithData ((splitLinesChar chunks.flatten).getLastD [])
          then some ((splitLinesChar chunks.flatten).getLastD [])
          else none)) := by
  have hcf : sseClient classify chunks =
      finishRun (processChunks classify [] chunks) := by
    simp only [sseClient, finishRun]
    by_cases h : (processChunks classify [] chunks).2.2 <;> simp [h]
  have hmain : sseClient classify chunks =
      sseSpec classify chunks.flatten := by
    rw [hcf]
    simpa using processChunks_spec classify chunks [] (by simp)
  refine ⟨hmain, ?_⟩
  intro hno
  have hfl := handleLines_filter classify
    (splitLinesChar chunks.flatten).dropLast hno
  rw [hmain]
  simp only [sseSpec]
  rw [hfl]
  simp

theorem c1_witness :
    (sseClient (fun _ => some false)
        [['d', 'a'], ['t', 'a', ':', ' ', 'o', 'k', '\n', 'x']]).1 =
      [['d', 'a', 't', 'a', ':', ' ', 'o', 'k']] :=
  (((c1_progress_stream_in_order (fun _ => some false)
      [['d', 'a'], ['t', 'a', ':', ' ', 'o', 'k', '\n', 'x']]).2
    (by decide)).1).trans (by decide)
